import Mathlib

/-!
Verification of the TelemetryWatch metrics subsystem.

The development shallowly embeds the Rust sources:
  * `src/middleware.rs` — `metrics_middleware` and `normalize_path`;
  * `src/metrics.rs`    — `Metrics::new` (the registration list) and `gather`;
  * `src/main.rs`       — `update_metrics` (the gauge reconciliation tick);
  * `src/api.rs`        — the `get_metrics` endpoint.

Registry state is modelled as association lists keyed by
(metric name, label-value tuple); metric samples (`f64` in the source) are
modelled as rationals, which is exact for every value this program ever
writes or compares.  The instrumentation middleware is embedded as the
list of metric operations it performs in program order, so that claims
about ordering as well as about final state can be settled.
-/

namespace TelemetryWatch

/-- A series key: metric name together with the label-value tuple
(`with_label_values` in the prometheus crate). A plain (unlabelled)
metric uses the empty tuple. -/
abbrev GKey := String × List String

/-- Gauge store: one rational value per series. -/
abbrev GStore := List (GKey × ℚ)

/-- Counter store: one count per series. -/
abbrev CStore := List (GKey × Nat)

/-- Histogram store: the list of observations per series. -/
abbrev HStore := List (GKey × List ℚ)

/-- Look up a key in an association list. -/
def alookup {κ β : Type} [DecidableEq κ] (k : κ) : List (κ × β) → Option β
  | [] => none
  | (k', v) :: rest => if k' = k then some v else alookup k rest

/-- Absolute set of a gauge series (`Gauge::set` /
`GaugeVec::with_label_values(..).set(..)`): overwrite the existing series
in place, or create it if absent. -/
def gset (k : GKey) (v : ℚ) : GStore → GStore
  | [] => [(k, v)]
  | (k', v') :: rest => if k' = k then (k', v) :: rest else (k', v') :: gset k v rest

/-- Add `d` to a gauge series (`Gauge::inc` / `Gauge::dec`): a fresh
series starts at 0. -/
def gadd (k : GKey) (d : ℚ) (g : GStore) : GStore :=
  gset k ((alookup k g).getD 0 + d) g

/-- Increment a counter series by one
(`IntCounterVec::with_label_values(..).inc()`): a fresh series starts
at 0 and is created on first touch. -/
def cinc (k : GKey) : CStore → CStore
  | [] => [(k, 1)]
  | (k', v) :: rest => if k' = k then (k', v + 1) :: rest else (k', v) :: cinc k rest

/-- Record one observation into a histogram series
(`HistogramVec::with_label_values(..).observe(v)`). -/
def hobs (k : GKey) (v : ℚ) : HStore → HStore
  | [] => [(k, [v])]
  | (k', vs) :: rest => if k' = k then (k', vs ++ [v]) :: rest else (k', vs) :: hobs k v rest

/-! ## Path normalisation (`normalize_path`, src/middleware.rs:124-142) -/

/-- Split a character list on `'/'`, exactly as Rust's
`path.split('/')`: splitting the empty string yields one empty segment,
and a leading `'/'` yields a leading empty segment. -/
def splitSlash : List Char → List (List Char)
  | [] => [[]]
  | c :: rest =>
    match splitSlash rest with
    | [] => [[]]
    | s :: ss => if c = '/' then [] :: s :: ss else (c :: s) :: ss

/-- Join segments with `'/'` (Rust's `join("/")`). -/
def joinSlash : List (List Char) → List Char
  | [] => []
  | [s] => s
  | s :: rest => s ++ '/' :: joinSlash rest

/-- Numeric value of a digit list (most significant first). -/
def digitsVal : List Char → Nat :=
  List.foldl (fun acc c => acc * 10 + (c.toNat - '0'.toNat)) 0

/-- Rust's `str::parse::<u64>()` succeeds: an optional leading `'+'`,
then one or more ASCII digits, and the value fits in 64 bits. -/
def parsesAsU64 (s : List Char) : Bool :=
  let t := match s with
    | '+' :: r => r
    | r => r
  !t.isEmpty && t.all Char.isDigit && digitsVal t < 2 ^ 64

/-- The `/`-delimited segments of a path, as the source's
`path.split('/').collect()` produces them. -/
def pathSegments (path : String) : List (List Char) :=
  splitSlash path.data

/-- `normalize_path` (src/middleware.rs:124-142): under the `/api/`
prefix, with more than 3 split segments whose last looks like an id
(parses as `u64` or is longer than 10 characters), replace the final
segment by `:id`; otherwise return the path unchanged. -/
def normalize_path (path : String) : String :=
  if ("/api/".data).isPrefixOf path.data then
    let parts := splitSlash path.data
    if parts.length > 3 then
      let lastPart := (parts.getLast?).getD []
      if parsesAsU64 lastPart || lastPart.length > 10 then
        ⟨joinSlash (parts.dropLast) ++ ('/' :: ':' :: 'i' :: 'd' :: [])⟩
      else path
    else path
  else path

/-! ## Registry state and metric operations -/

/-- The mutable metric state of the process registry. -/
structure RegistryState where
  gauges : GStore
  counters : CStore
  histos : HStore
deriving DecidableEq

/-- One metric operation, as issued by the instrumented code, in
program order. -/
inductive MEvent where
  | gaugeInc (name : String)
  | gaugeDec (name : String)
  | gaugeSet (name : String) (labels : List String) (value : ℚ)
  | counterInc (name : String) (labels : List String)
  | observe (name : String) (labels : List String) (value : ℚ)
deriving DecidableEq

/-- Effect of one metric operation on the registry. Plain gauges use
the empty label tuple. -/
def applyEvent (st : RegistryState) : MEvent → RegistryState
  | .gaugeInc n => { st with gauges := gadd (n, []) 1 st.gauges }
  | .gaugeDec n => { st with gauges := gadd (n, []) (-1) st.gauges }
  | .gaugeSet n ls v => { st with gauges := gset (n, ls) v st.gauges }
  | .counterInc n ls => { st with counters := cinc (n, ls) st.counters }
  | .observe n ls v => { st with histos := hobs (n, ls) v st.histos }

/-- Run a list of metric operations left to right. -/
def runEvents (st : RegistryState) (es : List MEvent) : RegistryState :=
  es.foldl applyEvent st

/-! ## Request instrumentation middleware
(`metrics_middleware`, src/middleware.rs:12-122) -/

/-- The part of an inbound request the middleware reads: method, raw
path, and the parsed `content-length` header (`None` when the header is
absent or unparsable, which the source maps to `0.0`). -/
structure Request where
  method : String
  path : String
  contentLength : Option ℚ
deriving DecidableEq

/-- Outcome of `next.run(request).await`: either a response (status
code and parsed `content-length`), or an unrecoverable fault (panic)
that unwinds through the middleware. -/
inductive HandlerResult where
  | ok (status : Nat) (contentLength : Option ℚ)
  | fault
deriving DecidableEq

/-- `error_type` classification (src/middleware.rs:46-52). -/
def errorTypeOf (status : Nat) : String :=
  if 500 ≤ status then "server_error"
  else if 400 ≤ status then "client_error"
  else "none"

/-- The metric operations `metrics_middleware` performs, in program
order.  On a fault, only the operations before the `await` (the
in-flight gauge increment) have happened; the unwind skips the rest
(src/middleware.rs:33-121). -/
def middlewareEvents (req : Request) (outcome : HandlerResult) (duration : ℚ) : List MEvent :=
  let endpoint := normalize_path req.path
  let requestSize := req.contentLength.getD 0
  MEvent.gaugeInc "active_connections" ::
    match outcome with
    | .fault => []
    | .ok status respLen =>
      let statusStr := toString status
      let eTy := errorTypeOf status
      let responseSize := respLen.getD 0
      (if 0 < requestSize then
        [MEvent.observe "http_request_size_bytes" [req.method, endpoint] requestSize] else []) ++
      (if 0 < responseSize then
        [MEvent.observe "http_response_size_bytes" [req.method, endpoint, statusStr] responseSize] else []) ++
      [MEvent.counterInc "http_requests_total" [req.method, endpoint, statusStr]] ++
      [MEvent.observe "http_request_duration_seconds" [req.method, endpoint] duration] ++
      (if eTy ≠ "none" then
        [MEvent.counterInc "http_errors_total" [req.method, endpoint, statusStr, eTy]] else []) ++
      (if 1/2 < duration then
        [MEvent.counterInc "sla_violations_total" [endpoint, "latency_p95"]] else []) ++
      (if 1 < duration then
        [MEvent.counterInc "sla_violations_total" [endpoint, "latency_p99"]] else []) ++
      [MEvent.gaugeDec "active_connections"]

/-- Net effect of `metrics_middleware` on the registry for one request. -/
def metrics_middleware (req : Request) (outcome : HandlerResult) (duration : ℚ)
    (st : RegistryState) : RegistryState :=
  runEvents st (middlewareEvents req outcome duration)

/-- The operations issued after the wrapped handler completed, i.e.
everything following the in-flight gauge increment. -/
def completionEvents (req : Request) (status : Nat) (respLen : Option ℚ)
    (duration : ℚ) : List MEvent :=
  (middlewareEvents req (.ok status respLen) duration).drop 1

/-! ## Gauge reconciliation tick (`update_metrics`, src/main.rs:86-153) -/

/-- The fields of a project row the reconciliation job reads. -/
structure Project where
  slug : String
  status : String
  plan : String
  region : String
deriving DecidableEq

/-- The fixed cross-product of known statuses and plans that the tick
resets to zero, in source loop order (src/main.rs:136-143). -/
def allCombos : List (String × String) :=
  [("active", "dev"), ("active", "pro"), ("active", "enterprise"),
   ("suspended", "dev"), ("suspended", "pro"), ("suspended", "enterprise")]

/-- `*status_plan_counts.entry(key).or_insert(0) += 1`. -/
def addCount (k : String × String) :
    List ((String × String) × Nat) → List ((String × String) × Nat)
  | [] => [(k, 1)]
  | (k', v) :: rest => if k' = k then (k', v + 1) :: rest else (k', v) :: addCount k rest

/-- The `status_plan_counts` map built over the snapshot
(src/main.rs:101-131). -/
def statusPlanCounts (ps : List Project) : List ((String × String) × Nat) :=
  ps.foldl (fun m p => addCount (p.status, p.plan) m) []

/-- The absolute gauge writes one reconciliation tick performs, in
program order: pool-size gauge, then (when the store read succeeded)
per-project existence gauges, the six zero resets, and the recomputed
totals (src/main.rs:86-152). -/
def updateWrites (poolSize : ℚ) (snap : Option (List Project)) : List (GKey × ℚ) :=
  (("db_pool_size", []), poolSize) ::
    match snap with
    | none => []
    | some ps =>
      ps.map (fun p => (("platform_projects", [p.slug, p.status, p.plan, p.region]), (1 : ℚ))) ++
      allCombos.map (fun c => (("platform_projects_total", [c.1, c.2]), (0 : ℚ))) ++
      (statusPlanCounts ps).map (fun e => (("platform_projects_total", [e.1.1, e.1.2]), (e.2 : ℚ)))

/-- Apply a list of absolute gauge writes left to right. -/
def applySets (ws : List (GKey × ℚ)) (g : GStore) : GStore :=
  ws.foldl (fun g w => gset w.1 w.2 g) g

/-- One reconciliation tick.  `snap = none` models a failed
`list_platform_projects` read (the `if let Ok(..)` body is skipped). -/
def update_metrics (poolSize : ℚ) (snap : Option (List Project))
    (st : RegistryState) : RegistryState :=
  { st with gauges := applySets (updateWrites poolSize snap) st.gauges }

/-! ## Whole-process operations -/

/-- Registry state right after `Metrics::new()`: plain gauges and the
plain counter exist at 0, plain histograms exist with no observations,
and no vector metric has any series yet. -/
def initState : RegistryState :=
  { gauges := [(("active_connections", []), 0), (("db_pool_size", []), 0),
               (("db_pool_idle", []), 0), (("db_pool_active", []), 0)],
    counters := [(("database_queries_total", []), 0)],
    histos := [(("database_query_duration_seconds", []), []),
               (("db_pool_wait_time_seconds", []), [])] }

/-- One observable operation of the running process: an instrumented
request, or one reconciliation tick. -/
inductive Op where
  | request (req : Request) (outcome : HandlerResult) (duration : ℚ)
  | tick (poolSize : ℚ) (snap : Option (List Project))
deriving DecidableEq

/-- Effect of one operation on the registry. -/
def stepOp (st : RegistryState) : Op → RegistryState
  | .request req outcome duration => metrics_middleware req outcome duration st
  | .tick poolSize snap => update_metrics poolSize snap st

/-- Run a sequence of process operations from a starting state. -/
def runOps (st : RegistryState) (ops : List Op) : RegistryState :=
  ops.foldl stepOp st

/-! ## Metric registration (`Metrics::new`, src/metrics.rs:31-173) -/

/-- The three prometheus metric kinds this program registers. -/
inductive MetricKind where
  | counter
  | gauge
  | histogram
deriving DecidableEq

/-- One registration performed by `Metrics::new`: metric name, declared
label names (empty for a plain metric), and kind. -/
structure MetricReg where
  mname : String
  labels : List String
  kind : MetricKind
deriving DecidableEq

/-- The registrations `Metrics::new` performs, in source order
(src/metrics.rs:35-153). -/
def metricsNew : List MetricReg :=
  [⟨"http_requests_total", ["method", "endpoint", "status"], .counter⟩,
   ⟨"http_request_duration_seconds", ["method", "endpoint"], .histogram⟩,
   ⟨"active_connections", [], .gauge⟩,
   ⟨"database_queries_total", [], .counter⟩,
   ⟨"database_query_duration_seconds", [], .histogram⟩,
   ⟨"http_errors_total", ["method", "endpoint", "status", "error_type"], .counter⟩,
   ⟨"http_error_rate", ["error_class"], .gauge⟩,
   ⟨"db_pool_size", [], .gauge⟩,
   ⟨"db_pool_idle", [], .gauge⟩,
   ⟨"db_pool_active", [], .gauge⟩,
   ⟨"db_pool_wait_time_seconds", [], .histogram⟩,
   ⟨"http_request_size_bytes", ["method", "endpoint"], .histogram⟩,
   ⟨"http_response_size_bytes", ["method", "endpoint", "status"], .histogram⟩,
   ⟨"endpoint_error_rate", ["endpoint", "error_class"], .gauge⟩,
   ⟨"sla_violations_total", ["endpoint", "sla_type"], .counter⟩]

/-! ## The metrics endpoint (`get_metrics`, src/api.rs:138-151) -/

/-- The observable parts of an HTTP response from the endpoint. -/
structure HttpResponse where
  status : Nat
  contentType : Option String
  body : String
deriving DecidableEq

/-- `get_metrics` (src/api.rs:138-151): on a successful
`Metrics::gather` return the rendered text with the Prometheus content
type; on a gather error return 500 with a fixed error message (axum
gives a bare `&str` body the plain-text content type). -/
def get_metrics (gatherResult : Except String String) : HttpResponse :=
  match gatherResult with
  | .ok body => ⟨200, some "text/plain; version=0.0.4", body⟩
  | .error _ => ⟨500, some "text/plain; charset=utf-8", "Failed to gather metrics"⟩

/-! ## Derived quantities used by the claims -/

/-- Sum of a counter vector over all its series. -/
def counterSum (name : String) (st : RegistryState) : Nat :=
  (st.counters.map (fun e => if e.1.1 = name then e.2 else 0)).sum

/-- Whether an operation is a request whose handler returned a
response (as opposed to faulting, or a reconciliation tick). -/
def isCompletedRequest : Op → Bool
  | .request _ (.ok _ _) _ => true
  | _ => false

/-- Whether an operation is an instrumented request at all. -/
def isRequest : Op → Bool
  | .request _ _ _ => true
  | _ => false

/-- The metrics that are registered but, per the claim, never written:
two gauge vectors and two plain gauges. -/
def untouchedNames : List String :=
  ["http_error_rate", "endpoint_error_rate", "db_pool_idle", "db_pool_active"]

/-- Whether a series key belongs to one of the never-written metrics. -/
def isUntouchedKey (k : GKey) : Bool :=
  untouchedNames.contains k.1

/-- The registry restricted to the never-written metrics. -/
def restrictState (st : RegistryState) : RegistryState :=
  ⟨st.gauges.filter (fun e => isUntouchedKey e.1),
   st.counters.filter (fun e => isUntouchedKey e.1),
   st.histos.filter (fun e => isUntouchedKey e.1)⟩

/-- The metric name an operation writes to. -/
def eventName : MEvent → String
  | .gaugeInc n => n
  | .gaugeDec n => n
  | .gaugeSet n _ _ => n
  | .counterInc n _ => n
  | .observe n _ _ => n

/-- An operation that does not touch any of the never-written metrics. -/
def eventSafe (e : MEvent) : Bool :=
  !(untouchedNames.contains (eventName e))

/-- The metrics of the platform-project block. -/
def platformNames : List String :=
  ["platform_projects", "platform_projects_total"]

/-- Deterministic text rendering of the platform-project metrics block:
one exposition line per series, in store order. -/
def renderPlatformBlock (st : RegistryState) : String :=
  String.join ((st.gauges.filter (fun e => platformNames.contains e.1.1)).map
    (fun e => e.1.1 ++ "\x7b" ++ String.intercalate "," e.1.2 ++ "\x7d " ++ toString e.2 ++ "\n"))

/-- Projects in the snapshot with the given status and plan. -/
def comboCount (s pl : String) (ps : List Project) : Nat :=
  (ps.filter (fun p => (p.status, p.plan) = (s, pl))).length

/-- The six completion-time records of the middleware in their actual
relative order: request-size and response-size histograms, request
counter, duration histogram, error counter, SLA-violation counters
(src/middleware.rs:62-116). -/
def recordEvents (req : Request) (status : Nat) (respLen : Option ℚ)
    (duration : ℚ) : List MEvent :=
  let endpoint := normalize_path req.path
  let requestSize := req.contentLength.getD 0
  let statusStr := toString status
  let eTy := errorTypeOf status
  let responseSize := respLen.getD 0
  (if 0 < requestSize then
    [MEvent.observe "http_request_size_bytes" [req.method, endpoint] requestSize] else []) ++
  (if 0 < responseSize then
    [MEvent.observe "http_response_size_bytes" [req.method, endpoint, statusStr] responseSize] else []) ++
  [MEvent.counterInc "http_requests_total" [req.method, endpoint, statusStr]] ++
  [MEvent.observe "http_request_duration_seconds" [req.method, endpoint] duration] ++
  (if eTy ≠ "none" then
    [MEvent.counterInc "http_errors_total" [req.method, endpoint, statusStr, eTy]] else []) ++
  (if 1/2 < duration then
    [MEvent.counterInc "sla_violations_total" [endpoint, "latency_p95"]] else []) ++
  (if 1 < duration then
    [MEvent.counterInc "sla_violations_total" [endpoint, "latency_p99"]] else [])

/-- The last value written to a series by a write list, if any. -/
def lastWrite (k : GKey) : List (GKey × ℚ) → Option ℚ
  | [] => none
  | (k', v) :: rest =>
    match lastWrite k rest with
    | some w => some w
    | none => if k' = k then some v else none

/-- Add `n` occurrences to an optional count, keeping `none` only when
nothing was there and nothing is added. -/
def optAdd (o : Option Nat) (n : Nat) : Option Nat :=
  match o with
  | some v => some (v + n)
  | none => if n = 0 then none else some n

/-- Contribution of one metric operation to a named counter vector's
summed total. -/
def eventCounterBump (name : String) : MEvent → Nat
  | .counterInc n _ => if n = name then 1 else 0
  | _ => 0

/-! # Theorems

First the association-list and write-list lemmas, then the per-claim
theorems. -/

theorem alookup_gset (k k' : GKey) (v : ℚ) (g : GStore) :
    alookup k' (gset k v g) = if k = k' then some v else alookup k' g := by
  induction g with
  | nil => by_cases h : k = k' <;> simp [gset, alookup, h]
  | cons e rest ih =>
    obtain ⟨k'', v''⟩ := e
    by_cases h1 : k'' = k
    · subst h1
      by_cases h2 : k'' = k'
      · subst h2
        simp [gset, alookup]
      · simp [gset, alookup, h2]
    · by_cases h2 : k'' = k'
      · subst h2
        have hk : ¬ k = k'' := fun h => h1 h.symm
        simp [gset, alookup, h1, hk]
      · simp [gset, alookup, h1, h2, ih]

theorem alookup_eq_none_iff {κ β : Type} [DecidableEq κ] (k : κ) (l : List (κ × β)) :
    alookup k l = none ↔ k ∉ l.map Prod.fst := by
  induction l with
  | nil =>
    constructor
    · intro _ hmem
      simp at hmem
    · intro _
      rfl
  | cons e rest ih =>
    obtain ⟨k', v⟩ := e
    rw [List.map_cons, List.mem_cons]
    by_cases h : k' = k
    · subst h
      rw [alookup, if_pos rfl]
      constructor
      · intro hl
        exact absurd hl (by simp)
      · intro hmem
        exact absurd (Or.inl rfl) hmem
    · have h' : ¬ k = k' := fun hk => h hk.symm
      rw [alookup, if_neg h, ih]
      constructor
      · intro hnm hor
        rcases hor with h1 | h1
        · exact h' h1
        · exact hnm h1
      · intro hnm h1
        exact hnm (Or.inr h1)

theorem alookup_applySets (ws : List (GKey × ℚ)) (g : GStore) (k : GKey) :
    alookup k (applySets ws g) =
      match lastWrite k ws with
      | some v => some v
      | none => alookup k g := by
  induction ws generalizing g with
  | nil => simp [applySets, lastWrite]
  | cons w rest ih =>
    obtain ⟨kw, vw⟩ := w
    have : applySets ((kw, vw) :: rest) g = applySets rest (gset kw vw g) := rfl
    rw [this, ih, lastWrite]
    cases hlw : lastWrite k rest with
    | some w' => simp
    | none =>
      by_cases h : kw = k <;> simp [h, alookup_gset]

theorem lastWrite_append (k : GKey) (a b : List (GKey × ℚ)) :
    lastWrite k (a ++ b) =
      match lastWrite k b with
      | some v => some v
      | none => lastWrite k a := by
  induction a with
  | nil => cases hb : lastWrite k b <;> simp [lastWrite, hb]
  | cons w rest ih =>
    obtain ⟨kw, vw⟩ := w
    rw [List.cons_append, lastWrite, ih, lastWrite]
    cases lastWrite k b <;> cases lastWrite k rest <;> simp

theorem lastWrite_eq_none_of_names_ne (k : GKey) (ws : List (GKey × ℚ))
    (h : ∀ w ∈ ws, w.1.1 ≠ k.1) : lastWrite k ws = none := by
  induction ws with
  | nil => rfl
  | cons w rest ih =>
    obtain ⟨kw, vw⟩ := w
    rw [lastWrite, ih (fun w hw => h w (List.mem_cons_of_mem _ hw))]
    have : kw ≠ k := by
      intro hk
      exact h (kw, vw) (List.mem_cons_self _ _) (by rw [hk])
    simp [this]

theorem gset_cons_eq (k : GKey) (v v' : ℚ) (rest : GStore) :
    gset k v ((k, v') :: rest) = (k, v) :: rest := by
  simp [gset]

theorem gset_cons_ne (k k' : GKey) (v v' : ℚ) (rest : GStore) (h : k' ≠ k) :
    gset k v ((k', v') :: rest) = (k', v') :: gset k v rest := by
  simp [gset, h]

theorem map_fst_gset_mem (k k' : GKey) (v : ℚ) (g : GStore) :
    k' ∈ (gset k v g).map Prod.fst ↔ k' ∈ g.map Prod.fst ∨ k' = k := by
  induction g with
  | nil => simp [gset]
  | cons e rest ih =>
    obtain ⟨k'', v''⟩ := e
    by_cases h : k'' = k
    · subst h
      rw [gset_cons_eq, List.map_cons, List.map_cons]
      simp only [List.mem_cons]
      tauto
    · rw [gset_cons_ne _ _ _ _ _ h, List.map_cons, List.map_cons]
      simp only [List.mem_cons, ih]
      tauto

theorem map_fst_gset_of_mem (k : GKey) (v : ℚ) (g : GStore)
    (h : k ∈ g.map Prod.fst) : (gset k v g).map Prod.fst = g.map Prod.fst := by
  induction g with
  | nil => simp at h
  | cons e rest ih =>
    obtain ⟨k', v'⟩ := e
    by_cases hk : k' = k
    · subst hk
      rw [gset_cons_eq, List.map_cons, List.map_cons]
    · rw [List.map_cons, List.mem_cons] at h
      rcases h with h | h
      · exact absurd h.symm hk
      · rw [gset_cons_ne _ _ _ _ _ hk, List.map_cons, List.map_cons, ih h]

theorem nodup_map_fst_gset (k : GKey) (v : ℚ) (g : GStore)
    (h : (g.map Prod.fst).Nodup) : ((gset k v g).map Prod.fst).Nodup := by
  induction g with
  | nil => simp [gset]
  | cons e rest ih =>
    obtain ⟨k', v'⟩ := e
    rw [List.map_cons, List.nodup_cons] at h
    by_cases hk : k' = k
    · subst hk
      rw [gset_cons_eq, List.map_cons, List.nodup_cons]
      exact ⟨h.1, h.2⟩
    · rw [gset_cons_ne _ _ _ _ _ hk, List.map_cons, List.nodup_cons]
      refine ⟨?_, ih h.2⟩
      intro hmem
      rw [map_fst_gset_mem] at hmem
      rcases hmem with hm | hm
      · exact h.1 hm
      · exact hk hm

theorem map_fst_applySets_mono (ws : List (GKey × ℚ)) (g : GStore) (k : GKey)
    (h : k ∈ g.map Prod.fst) : k ∈ (applySets ws g).map Prod.fst := by
  induction ws generalizing g with
  | nil => exact h
  | cons w rest ih =>
    show k ∈ (applySets rest (gset w.1 w.2 g)).map Prod.fst
    exact ih _ ((map_fst_gset_mem w.1 k w.2 g).2 (Or.inl h))

theorem writes_mem_map_fst_applySets (ws : List (GKey × ℚ)) (g : GStore) :
    ∀ w ∈ ws, w.1 ∈ (applySets ws g).map Prod.fst := by
  induction ws generalizing g with
  | nil =>
    intro w hw
    simp at hw
  | cons w0 rest ih =>
    intro w hw
    rcases List.mem_cons.1 hw with h | h
    · rw [h]
      show w0.1 ∈ (applySets rest (gset w0.1 w0.2 g)).map Prod.fst
      exact map_fst_applySets_mono rest _ _ ((map_fst_gset_mem w0.1 w0.1 w0.2 g).2 (Or.inr rfl))
    · exact ih _ _ h

theorem map_fst_applySets_of_subset (ws : List (GKey × ℚ)) (g : GStore)
    (h : ∀ w ∈ ws, w.1 ∈ g.map Prod.fst) :
    (applySets ws g).map Prod.fst = g.map Prod.fst := by
  induction ws generalizing g with
  | nil => rfl
  | cons w rest ih =>
    have h0 : w.1 ∈ g.map Prod.fst := h w (List.mem_cons_self _ _)
    have hg := map_fst_gset_of_mem w.1 w.2 g h0
    calc (applySets (w :: rest) g).map Prod.fst
        = (applySets rest (gset w.1 w.2 g)).map Prod.fst := rfl
      _ = (gset w.1 w.2 g).map Prod.fst := by
          refine ih _ (fun w' hw' => ?_)
          rw [hg]
          exact h w' (List.mem_cons_of_mem _ hw')
      _ = g.map Prod.fst := hg

theorem nodup_map_fst_applySets (ws : List (GKey × ℚ)) (g : GStore)
    (h : (g.map Prod.fst).Nodup) : ((applySets ws g).map Prod.fst).Nodup := by
  induction ws generalizing g with
  | nil => exact h
  | cons w rest ih => exact ih _ (nodup_map_fst_gset _ _ _ h)

theorem gstore_ext (g1 : GStore)
    (hnd : (g1.map Prod.fst).Nodup) :
    ∀ g2 : GStore, g1.map Prod.fst = g2.map Prod.fst →
      (∀ k, alookup k g1 = alookup k g2) → g1 = g2 := by
  induction g1 with
  | nil =>
    intro g2 hkeys _
    cases g2 with
    | nil => rfl
    | cons e t => simp at hkeys
  | cons e1 t1 ih =>
    intro g2 hkeys hlook
    cases g2 with
    | nil => simp at hkeys
    | cons e2 t2 =>
      obtain ⟨k1, v1⟩ := e1
      obtain ⟨k2, v2⟩ := e2
      rw [List.map_cons, List.map_cons] at hkeys
      injection hkeys with hk ht
      subst hk
      have hv := hlook k1
      rw [alookup, if_pos rfl, alookup, if_pos rfl] at hv
      injection hv with hv
      subst hv
      rw [List.map_cons, List.nodup_cons] at hnd
      have htail : ∀ k, alookup k t1 = alookup k t2 := by
        intro k
        by_cases hk1 : k1 = k
        · subst hk1
          have h1 : alookup k1 t1 = none := (alookup_eq_none_iff _ _).2 hnd.1
          have h2 : alookup k1 t2 = none := (alookup_eq_none_iff _ _).2 (by rw [← ht]; exact hnd.1)
          rw [h1, h2]
        · have hl := hlook k
          rw [alookup, if_neg hk1, alookup, if_neg hk1] at hl
          exact hl
      rw [ih hnd.2 t2 ht htail]

theorem applySets_idem (ws : List (GKey × ℚ)) (g : GStore)
    (hnd : (g.map Prod.fst).Nodup) :
    applySets ws (applySets ws g) = applySets ws g := by
  apply gstore_ext
  · exact nodup_map_fst_applySets _ _ (nodup_map_fst_applySets _ _ hnd)
  · exact map_fst_applySets_of_subset _ _ (writes_mem_map_fst_applySets ws g)
  · intro k
    rw [alookup_applySets, alookup_applySets]
    cases hlw : lastWrite k ws <;> simp only [hlw]

theorem alookup_addCount (k k' : String × String) (m : List ((String × String) × Nat)) :
    alookup k' (addCount k m) =
      if k = k' then some ((alookup k' m).getD 0 + 1) else alookup k' m := by
  induction m with
  | nil => by_cases h : k = k' <;> simp [addCount, alookup, h]
  | cons e rest ih =>
    obtain ⟨k'', v⟩ := e
    by_cases h1 : k'' = k
    · subst h1
      by_cases h2 : k'' = k'
      · subst h2
        simp [addCount, alookup]
      · simp [addCount, alookup, h2]
    · by_cases h2 : k'' = k'
      · subst h2
        have hk : ¬ k = k'' := fun h => h1 h.symm
        simp [addCount, alookup, h1, hk]
      · simp [addCount, alookup, h1, h2, ih]

theorem alookup_countsFold (ps : List Project) :
    ∀ (m : List ((String × String) × Nat)) (k : String × String),
      alookup k (ps.foldl (fun m p => addCount (p.status, p.plan) m) m)
        = optAdd (alookup k m) ((ps.filter (fun p => (p.status, p.plan) = k)).length) := by
  induction ps with
  | nil =>
    intro m k
    simp only [List.foldl_nil, List.filter_nil, List.length_nil]
    cases halk : alookup k m <;> simp [optAdd]
  | cons p rest ih =>
    intro m k
    show alookup k (rest.foldl (fun m p => addCount (p.status, p.plan) m)
        (addCount (p.status, p.plan) m)) = _
    rw [ih, alookup_addCount]
    by_cases h : (p.status, p.plan) = k
    · rw [if_pos h]
      rw [List.filter_cons_of_pos (by simp [h])]
      rw [List.length_cons]
      cases alookup k m <;> simp [optAdd] <;> omega
    · rw [if_neg h]
      rw [List.filter_cons_of_neg (by simp [h])]

theorem mem_map_fst_addCount (k k' : String × String) (m : List ((String × String) × Nat)) :
    k' ∈ (addCount k m).map Prod.fst ↔ k' ∈ m.map Prod.fst ∨ k' = k := by
  induction m with
  | nil => simp [addCount]
  | cons e rest ih =>
    obtain ⟨k'', v⟩ := e
    by_cases h : k'' = k
    · subst h
      have : addCount k'' ((k'', v) :: rest) = (k'', v + 1) :: rest := by simp [addCount]
      rw [this, List.map_cons, List.map_cons]
      simp only [List.mem_cons]
      tauto
    · have : addCount k ((k'', v) :: rest) = (k'', v) :: addCount k rest := by
        simp [addCount, h]
      rw [this, List.map_cons, List.map_cons]
      simp only [List.mem_cons, ih]
      tauto

theorem nodup_map_fst_addCount (k : String × String) (m : List ((String × String) × Nat))
    (h : (m.map Prod.fst).Nodup) : ((addCount k m).map Prod.fst).Nodup := by
  induction m with
  | nil => simp [addCount]
  | cons e rest ih =>
    obtain ⟨k', v⟩ := e
    rw [List.map_cons, List.nodup_cons] at h
    by_cases hk : k' = k
    · subst hk
      have : addCount k' ((k', v) :: rest) = (k', v + 1) :: rest := by simp [addCount]
      rw [this, List.map_cons, List.nodup_cons]
      exact ⟨h.1, h.2⟩
    · have : addCount k ((k', v) :: rest) = (k', v) :: addCount k rest := by
        simp [addCount, hk]
      rw [this, List.map_cons, List.nodup_cons]
      refine ⟨?_, ih h.2⟩
      intro hmem
      rw [mem_map_fst_addCount] at hmem
      rcases hmem with hm | hm
      · exact h.1 hm
      · exact hk hm

theorem nodup_map_fst_statusPlanCounts (ps : List Project) :
    ((statusPlanCounts ps).map Prod.fst).Nodup := by
  suffices h : ∀ m : List ((String × String) × Nat), (m.map Prod.fst).Nodup →
      (((ps.foldl (fun m p => addCount (p.status, p.plan) m) m)).map Prod.fst).Nodup by
    exact h [] (by simp)
  induction ps with
  | nil => intro m hm; exact hm
  | cons p rest ih =>
    intro m hm
    exact ih _ (nodup_map_fst_addCount _ _ hm)

theorem lastWrite_countsWrites (l : List ((String × String) × Nat)) (s pl : String)
    (hnd : (l.map Prod.fst).Nodup) :
    lastWrite ("platform_projects_total", [s, pl])
        (l.map (fun e => (("platform_projects_total", [e.1.1, e.1.2]), (e.2 : ℚ))))
      = (alookup (s, pl) l).map (fun n => (n : ℚ)) := by
  induction l with
  | nil => rfl
  | cons e t ih =>
    obtain ⟨⟨es, ep⟩, n⟩ := e
    rw [List.map_cons, List.nodup_cons] at hnd
    rw [List.map_cons, lastWrite, ih hnd.2]
    by_cases h : ((es, ep) : String × String) = (s, pl)
    · have hnone : alookup ((s, pl) : String × String) t = none :=
        (alookup_eq_none_iff _ _).2 (h ▸ hnd.1)
      injection h with h1 h2
      subst h1
      subst h2
      simp [hnone, alookup]
    · have hkey : (("platform_projects_total", [es, ep]) : GKey)
          = ("platform_projects_total", [s, pl]) ↔ False := by
        constructor
        · intro hc
          apply h
          injection hc with _ hl
          injection hl with ha hl2
          injection hl2 with hb _
          rw [ha, hb]
        · intro hc
          exact hc.elim
      cases halk : alookup ((s, pl) : String × String) t with
      | none =>
        have h' : ¬ ((es, ep) : String × String) = (s, pl) := h
        simp [alookup, hkey, h', halk]
      | some v => simp [alookup, h, halk]

theorem lastWrite_resets (s pl : String) (h : (s, pl) ∈ allCombos) :
    lastWrite ("platform_projects_total", [s, pl])
        (allCombos.map (fun c => (("platform_projects_total", [c.1, c.2]), (0 : ℚ))))
      = some 0 := by
  simp only [allCombos, List.mem_cons, List.not_mem_nil, or_false] at h
  rcases h with h | h | h | h | h | h <;>
    (injection h with h1 h2; subst h1; subst h2; decide)

theorem lastWrite_projectWrites (ps : List Project) (s pl : String) :
    lastWrite ("platform_projects_total", [s, pl])
        (ps.map (fun p => (("platform_projects", [p.slug, p.status, p.plan, p.region]), (1 : ℚ))))
      = none := by
  apply lastWrite_eq_none_of_names_ne
  intro w hw
  rcases List.mem_map.1 hw with ⟨p, _, hp⟩
  rw [← hp]
  show ("platform_projects" : String) ≠ "platform_projects_total"
  decide

theorem lastWrite_updateWrites_total (poolSize : ℚ) (ps : List Project) (s pl : String)
    (h : (s, pl) ∈ allCombos) :
    lastWrite ("platform_projects_total", [s, pl]) (updateWrites poolSize (some ps))
      = some ((comboCount s pl ps : ℚ)) := by
  have hcounts : alookup ((s, pl) : String × String) (statusPlanCounts ps)
      = optAdd none (comboCount s pl ps) :=
    alookup_countsFold ps [] (s, pl)
  have hC : lastWrite ("platform_projects_total", [s, pl])
      ((statusPlanCounts ps).map
        (fun e => (("platform_projects_total", [e.1.1, e.1.2]), (e.2 : ℚ))))
      = (optAdd none (comboCount s pl ps)).map (fun n => (n : ℚ)) := by
    rw [lastWrite_countsWrites _ _ _ (nodup_map_fst_statusPlanCounts ps), hcounts]
  have hB := lastWrite_resets s pl h
  have hA := lastWrite_projectWrites ps s pl
  show lastWrite ("platform_projects_total", [s, pl])
      ((("db_pool_size", ([] : List String)), poolSize) ::
        (ps.map (fun p =>
            (("platform_projects", [p.slug, p.status, p.plan, p.region]), (1 : ℚ))) ++
         allCombos.map (fun c => (("platform_projects_total", [c.1, c.2]), (0 : ℚ))) ++
         (statusPlanCounts ps).map
           (fun e => (("platform_projects_total", [e.1.1, e.1.2]), (e.2 : ℚ)))))
      = some ((comboCount s pl ps : ℚ))
  rw [lastWrite, lastWrite_append, lastWrite_append, hA, hB, hC]
  cases hn : comboCount s pl ps with
  | zero => simp [optAdd]
  | succ m => simp [optAdd]

/-- C5: each reconciliation tick first zeroes `platform_projects_total`
for the six (status, plan) combinations of the fixed enumeration and
then overwrites the combinations present in the snapshot, so after a
successful tick the gauge at any enumerated combination reads exactly
the snapshot's count for it — in particular 0, never a stale value,
when the snapshot has no such project — regardless of the prior
registry state. -/
theorem platform_projects_total_reset_law (st : RegistryState) (poolSize : ℚ)
    (ps : List Project) (s pl : String) (h : (s, pl) ∈ allCombos) :
    alookup ("platform_projects_total", [s, pl])
        (update_metrics poolSize (some ps) st).gauges
      = some ((comboCount s pl ps : ℚ)) := by
  show alookup ("platform_projects_total", [s, pl])
      (applySets (updateWrites poolSize (some ps)) st.gauges)
    = some ((comboCount s pl ps : ℚ))
  rw [alookup_applySets, lastWrite_updateWrites_total poolSize ps s pl h]

/-- Witness for C5: a tick with three active/pro projects followed by a
tick with an empty snapshot leaves `platform_projects_total` for
(active, pro) at 0, not at 3. -/
theorem platform_projects_total_reset_law_witness :
    ("active", "pro") ∈ allCombos ∧
    alookup ("platform_projects_total", ["active", "pro"])
        (update_metrics 10 (some [])
          (update_metrics 10 (some [⟨"a", "active", "pro", "eu"⟩,
            ⟨"b", "active", "pro", "eu"⟩, ⟨"c", "active", "pro", "eu"⟩]) initState)).gauges
      = some 0 :=
  ⟨by decide, by
    have hthm := platform_projects_total_reset_law
      (update_metrics 10 (some [⟨"a", "active", "pro", "eu"⟩,
        ⟨"b", "active", "pro", "eu"⟩, ⟨"c", "active", "pro", "eu"⟩]) initState)
      10 [] "active" "pro" (by decide)
    simpa using hthm⟩

/-- C6: one reconciliation tick is idempotent — running
`update_metrics` twice with the same pool size and the same (unchanged)
project snapshot yields the same registry state, and in particular a
byte-identical rendering of the platform-project metrics block, because
every write the tick performs is an absolute gauge set. -/
theorem update_metrics_idempotent (st : RegistryState) (poolSize : ℚ)
    (snap : Option (List Project))
    (hnd : ((st.gauges.map Prod.fst)).Nodup) :
    update_metrics poolSize snap (update_metrics poolSize snap st)
        = update_metrics poolSize snap st
    ∧ renderPlatformBlock (update_metrics poolSize snap (update_metrics poolSize snap st))
        = renderPlatformBlock (update_metrics poolSize snap st) := by
  have hg := applySets_idem (updateWrites poolSize snap) st.gauges hnd
  have hstate : update_metrics poolSize snap (update_metrics poolSize snap st)
      = update_metrics poolSize snap st := by
    show RegistryState.mk
        (applySets (updateWrites poolSize snap)
          (applySets (updateWrites poolSize snap) st.gauges))
        st.counters st.histos
      = RegistryState.mk (applySets (updateWrites poolSize snap) st.gauges)
          st.counters st.histos
    rw [hg]
  exact ⟨hstate, congrArg renderPlatformBlock hstate⟩

/-- Witness for C6 at a concrete snapshot and starting state. -/
theorem update_metrics_idempotent_witness :
    update_metrics 10 (some [⟨"acme", "active", "pro", "us-east-1"⟩])
        (update_metrics 10 (some [⟨"acme", "active", "pro", "us-east-1"⟩]) initState)
      = update_metrics 10 (some [⟨"acme", "active", "pro", "us-east-1"⟩]) initState :=
  (update_metrics_idempotent initState 10
    (some [⟨"acme", "active", "pro", "us-east-1"⟩]) (by decide)).1

theorem csum_cinc (name : String) (k : GKey) (c : CStore) :
    ((cinc k c).map (fun e => if e.1.1 = name then e.2 else 0)).sum
      = (c.map (fun e => if e.1.1 = name then e.2 else 0)).sum
        + (if k.1 = name then 1 else 0) := by
  induction c with
  | nil => by_cases h : k.1 = name <;> simp [cinc, h]
  | cons e rest ih =>
    obtain ⟨k', v⟩ := e
    by_cases h : k' = k
    · subst h
      have : cinc k' ((k', v) :: rest) = (k', v + 1) :: rest := by simp [cinc]
      rw [this, List.map_cons, List.map_cons, List.sum_cons, List.sum_cons]
      by_cases hn : k'.1 = name <;> simp [hn] <;> try omega
    · have : cinc k ((k', v) :: rest) = (k', v) :: cinc k rest := by simp [cinc, h]
      rw [this, List.map_cons, List.map_cons, List.sum_cons, List.sum_cons, ih]
      omega

theorem csum_applyEvent (name : String) (st : RegistryState) (e : MEvent) :
    counterSum name (applyEvent st e) = counterSum name st + eventCounterBump name e := by
  cases e with
  | gaugeInc n => simp [applyEvent, counterSum, eventCounterBump]
  | gaugeDec n => simp [applyEvent, counterSum, eventCounterBump]
  | gaugeSet n ls v => simp [applyEvent, counterSum, eventCounterBump]
  | counterInc n ls =>
    show counterSum name { st with counters := cinc (n, ls) st.counters } = _
    rw [counterSum, counterSum, eventCounterBump]
    exact csum_cinc name (n, ls) st.counters
  | observe n ls v => simp [applyEvent, counterSum, eventCounterBump]

theorem csum_runEvents (name : String) (es : List MEvent) :
    ∀ st, counterSum name (runEvents st es)
      = counterSum name st + (es.map (eventCounterBump name)).sum := by
  induction es with
  | nil =>
    intro st
    simp [runEvents]
  | cons e rest ih =>
    intro st
    show counterSum name (runEvents (applyEvent st e) rest) = _
    rw [ih, csum_applyEvent, List.map_cons, List.sum_cons]
    omega

theorem middlewareEvents_requests_bump (req : Request) (outcome : HandlerResult) (d : ℚ) :
    ((middlewareEvents req outcome d).map (eventCounterBump "http_requests_total")).sum
      = (if isCompletedRequest (.request req outcome d) then 1 else 0) := by
  cases outcome with
  | fault => simp [middlewareEvents, isCompletedRequest, eventCounterBump]
  | ok status respLen =>
    simp only [middlewareEvents, isCompletedRequest, if_pos]
    split_ifs <;>
      simp [eventCounterBump, List.map_append, List.sum_append]

theorem csum_stepOp (st : RegistryState) (op : Op) :
    counterSum "http_requests_total" (stepOp st op)
      = counterSum "http_requests_total" st + (if isCompletedRequest op then 1 else 0) := by
  cases op with
  | request req outcome d =>
    show counterSum "http_requests_total"
        (runEvents st (middlewareEvents req outcome d)) = _
    rw [csum_runEvents, middlewareEvents_requests_bump]
  | tick poolSize snap =>
    show counterSum "http_requests_total" (update_metrics poolSize snap st) = _
    simp [isCompletedRequest, counterSum, update_metrics]

/-- C1 (amended): over any sequence of process operations from startup,
the sum of `http_requests_total` over all (method, endpoint, status)
series equals the number of requests whose wrapped handler returned a
response — each such request is counted exactly once; a request whose
handler raised an unrecoverable fault is not counted at all, and
reconciliation ticks never touch the counter. -/
theorem http_requests_total_counts_completed (ops : List Op) :
    counterSum "http_requests_total" (runOps initState ops)
      = (ops.filter isCompletedRequest).length := by
  suffices h : ∀ st, counterSum "http_requests_total" (runOps st ops)
      = counterSum "http_requests_total" st + (ops.filter isCompletedRequest).length by
    have h0 : counterSum "http_requests_total" initState = 0 := by decide
    rw [h initState, h0, Nat.zero_add]
  induction ops with
  | nil =>
    intro st
    simp [runOps]
  | cons op rest ih =>
    intro st
    show counterSum "http_requests_total" (runOps (stepOp st op) rest) = _
    rw [ih, csum_stepOp]
    by_cases h : isCompletedRequest op <;> simp [List.filter_cons, h] <;> try omega

/-- C1 counterexample: after one request whose handler raised an
unrecoverable fault, the summed `http_requests_total` is 0, not 1 — the
claim that the counter counts every observed request including faulted
ones fails on the code, whose counter increment sits after the handler
await and is skipped by the unwind. -/
theorem http_requests_total_drops_faulted :
    counterSum "http_requests_total"
        (runOps initState [Op.request ⟨"GET", "/health", none⟩ HandlerResult.fault 0])
      ≠ [Op.request ⟨"GET", "/health", none⟩ HandlerResult.fault 0].length := by
  decide

/-- C2 (code bug): the middleware has no unwind guard, so after a
request whose handler raised an unrecoverable fault the in-flight gauge
`active_connections` is left at +1 — it was incremented at START and
the decrement, which sits after the handler await, never runs.  The
spec requires the gauge to be decremented before the fault propagates
(net change 0); the code leaves it permanently incremented. -/
theorem active_connections_leak_on_fault :
    alookup ("active_connections", [])
        (metrics_middleware ⟨"GET", "/health", none⟩ HandlerResult.fault 0 initState).gauges
      = some 1 := by
  show alookup ("active_connections", [])
      (gadd ("active_connections", []) 1 initState.gauges) = some 1
  rw [gadd, alookup_gset]
  simp [initState, alookup]

/-- C3 counterexample: at a concrete completed request (sizes present,
a 5xx status, a 2-second duration) the first operation the middleware
performs after handler completion is the request-size histogram
observation, and the in-flight gauge decrement is the last operation —
not the first, as the claim states. -/
theorem middleware_decrement_not_first :
    (completionEvents ⟨"POST", "/api/v1/platform/projects", some 100⟩ 500 (some 50) 2).head?
        ≠ some (MEvent.gaugeDec "active_connections")
    ∧ (completionEvents ⟨"POST", "/api/v1/platform/projects", some 100⟩ 500 (some 50) 2).getLast?
        = some (MEvent.gaugeDec "active_connections") := by
  have hnorm : normalize_path "/api/v1/platform/projects" = "/api/v1/platform/projects" := by
    decide
  have hstr : toString (500 : Nat) = "500" := by decide
  have hlist : completionEvents ⟨"POST", "/api/v1/platform/projects", some 100⟩ 500 (some 50) 2
      = [MEvent.observe "http_request_size_bytes" ["POST", "/api/v1/platform/projects"] 100,
         MEvent.observe "http_response_size_bytes" ["POST", "/api/v1/platform/projects", "500"] 50,
         MEvent.counterInc "http_requests_total" ["POST", "/api/v1/platform/projects", "500"],
         MEvent.observe "http_request_duration_seconds" ["POST", "/api/v1/platform/projects"] 2,
         MEvent.counterInc "http_errors_total"
           ["POST", "/api/v1/platform/projects", "500", "server_error"],
         MEvent.counterInc "sla_violations_total" ["/api/v1/platform/projects", "latency_p95"],
         MEvent.counterInc "sla_violations_total" ["/api/v1/platform/projects", "latency_p99"],
         MEvent.gaugeDec "active_connections"] := by
    simp only [completionEvents, middlewareEvents, errorTypeOf, hnorm, hstr, Option.getD]
    norm_num
    simp
  rw [hlist]
  constructor
  · simp
  · simp [List.getLast?]

/-- C3 (amended): for every completed request the middleware issues the
in-flight gauge increment first, then the six completion-time records
in the claimed relative order — request-size histogram, response-size
histogram, request counter, duration histogram, error counter,
SLA-violation counters — and decrements the in-flight gauge only
afterwards, as the final operation. -/
theorem middleware_records_then_decrements (req : Request) (status : Nat)
    (respLen : Option ℚ) (duration : ℚ) :
    middlewareEvents req (.ok status respLen) duration
      = MEvent.gaugeInc "active_connections"
        :: (recordEvents req status respLen duration
            ++ [MEvent.gaugeDec "active_connections"]) := by
  simp [middlewareEvents, recordEvents, List.append_assoc]

/-- C4 (code bug): `Metrics::new` registers every catalogue metric with
its listed name, labels, and kind — except the two platform gauges:
`platform_projects` and `platform_projects_total` appear nowhere in its
registration list, even though `update_metrics` in `main.rs` writes
both of them as fields of the `Metrics` struct. -/
theorem metricsNew_missing_platform_gauges :
    (⟨"http_requests_total", ["method", "endpoint", "status"], .counter⟩ : MetricReg) ∈ metricsNew
    ∧ (⟨"http_request_duration_seconds", ["method", "endpoint"], .histogram⟩ : MetricReg) ∈ metricsNew
    ∧ (⟨"http_errors_total", ["method", "endpoint", "status", "error_type"], .counter⟩ : MetricReg) ∈ metricsNew
    ∧ (⟨"http_request_size_bytes", ["method", "endpoint"], .histogram⟩ : MetricReg) ∈ metricsNew
    ∧ (⟨"http_response_size_bytes", ["method", "endpoint", "status"], .histogram⟩ : MetricReg) ∈ metricsNew
    ∧ (⟨"sla_violations_total", ["endpoint", "sla_type"], .counter⟩ : MetricReg) ∈ metricsNew
    ∧ (⟨"active_connections", [], .gauge⟩ : MetricReg) ∈ metricsNew
    ∧ (⟨"db_pool_size", [], .gauge⟩ : MetricReg) ∈ metricsNew
    ∧ (⟨"db_pool_idle", [], .gauge⟩ : MetricReg) ∈ metricsNew
    ∧ (⟨"db_pool_active", [], .gauge⟩ : MetricReg) ∈ metricsNew
    ∧ "platform_projects" ∉ metricsNew.map MetricReg.mname
    ∧ "platform_projects_total" ∉ metricsNew.map MetricReg.mname := by
  decide

/-- C7: `normalize_path` returns every path whose `/`-split has at most
3 segments verbatim, and rewrites a path (replacing its final segment
by `:id`) only when the path lies under the `/api/` prefix, splits into
more than 3 segments, and its final segment parses as a `u64` or is
longer than 10 characters. -/
theorem normalize_path_spec (p : String) :
    ((pathSegments p).length ≤ 3 → normalize_path p = p)
    ∧ (normalize_path p ≠ p →
        ("/api/".data).isPrefixOf p.data
        ∧ 3 < (pathSegments p).length
        ∧ (parsesAsU64 ((pathSegments p).getLast?.getD []) = true
           ∨ 10 < ((pathSegments p).getLast?.getD []).length)) := by
  constructor
  · intro hlen
    simp only [pathSegments] at hlen
    simp only [normalize_path]
    split_ifs with h1 h2 h3
    · omega
    · rfl
    · rfl
    · rfl
  · intro hne
    simp only [normalize_path] at hne
    split_ifs at hne with h1 h2 h3
    · refine ⟨h1, ?_, ?_⟩
      · simpa [pathSegments] using h2
      · simpa [pathSegments] using h3
    · exact absurd rfl hne
    · exact absurd rfl hne
    · exact absurd rfl hne

/-- Witness for C7: a short path is returned verbatim, and the one
rewritten fixture satisfies all three rewrite conditions. -/
theorem normalize_path_spec_witness :
    normalize_path "/health" = "/health"
    ∧ (("/api/".data).isPrefixOf "/api/v1/platform/projects/42".data
       ∧ 3 < (pathSegments "/api/v1/platform/projects/42").length
       ∧ (parsesAsU64 ((pathSegments "/api/v1/platform/projects/42").getLast?.getD []) = true
          ∨ 10 < ((pathSegments "/api/v1/platform/projects/42").getLast?.getD []).length)) :=
  ⟨(normalize_path_spec "/health").1 (by decide),
   (normalize_path_spec "/api/v1/platform/projects/42").2 (by decide)⟩

/-- C8: the three concrete normalisation fixtures hold —
`/api/v1/platform/projects` and `/health` come back unchanged, and
`/api/v1/platform/projects/42` becomes `/api/v1/platform/projects/:id`. -/
theorem normalize_path_fixtures :
    normalize_path "/api/v1/platform/projects" = "/api/v1/platform/projects"
    ∧ normalize_path "/api/v1/platform/projects/42" = "/api/v1/platform/projects/:id"
    ∧ normalize_path "/health" = "/health" := by
  refine ⟨by decide, by decide, by decide⟩

/-- C9: on a successful gather the metrics endpoint returns the
rendered exposition text with status 200 and content type
`text/plain; version=0.0.4`; on an internal rendering fault it returns
status 500 with a fixed error message and no metrics in the body. -/
theorem get_metrics_spec (r : Except String String) :
    (∀ m, r = .ok m →
      get_metrics r = ⟨200, some "text/plain; version=0.0.4", m⟩)
    ∧ (∀ e, r = .error e →
      (get_metrics r).status = 500 ∧ (get_metrics r).body = "Failed to gather metrics") := by
  constructor
  · intro m hm
    subst hm
    rfl
  · intro e he
    subst he
    exact ⟨rfl, rfl⟩

/-- Witness for C9 at one successful and one failing gather result. -/
theorem get_metrics_spec_witness :
    get_metrics (Except.ok "metrics text")
        = ⟨200, some "text/plain; version=0.0.4", "metrics text"⟩
    ∧ (get_metrics (Except.error "encoding fault")).status = 500
    ∧ (get_metrics (Except.error "encoding fault")).body = "Failed to gather metrics" :=
  ⟨(get_metrics_spec (Except.ok "metrics text")).1 "metrics text" rfl,
   (get_metrics_spec (Except.error "encoding fault")).2 "encoding fault" rfl⟩

theorem filter_gset_untouched (k : GKey) (v : ℚ) (g : GStore)
    (h : isUntouchedKey k = false) :
    (gset k v g).filter (fun e => isUntouchedKey e.1)
      = g.filter (fun e => isUntouchedKey e.1) := by
  induction g with
  | nil => simp [gset, List.filter, h]
  | cons e rest ih =>
    obtain ⟨k', v'⟩ := e
    by_cases hk : k' = k
    · subst hk
      rw [gset_cons_eq]
      simp [List.filter_cons, h]
    · rw [gset_cons_ne _ _ _ _ _ hk, List.filter_cons, List.filter_cons, ih]

theorem filter_cinc_untouched (k : GKey) (c : CStore)
    (h : isUntouchedKey k = false) :
    (cinc k c).filter (fun e => isUntouchedKey e.1)
      = c.filter (fun e => isUntouchedKey e.1) := by
  induction c with
  | nil => simp [cinc, List.filter, h]
  | cons e rest ih =>
    obtain ⟨k', v'⟩ := e
    by_cases hk : k' = k
    · subst hk
      have heq : cinc k' ((k', v') :: rest) = (k', v' + 1) :: rest := by simp [cinc]
      rw [heq]
      simp [List.filter_cons, h]
    · have heq : cinc k ((k', v') :: rest) = (k', v') :: cinc k rest := by simp [cinc, hk]
      rw [heq, List.filter_cons, List.filter_cons, ih]

theorem filter_hobs_untouched (k : GKey) (v : ℚ) (hs : HStore)
    (h : isUntouchedKey k = false) :
    (hobs k v hs).filter (fun e => isUntouchedKey e.1)
      = hs.filter (fun e => isUntouchedKey e.1) := by
  induction hs with
  | nil => simp [hobs, List.filter, h]
  | cons e rest ih =>
    obtain ⟨k', vs⟩ := e
    by_cases hk : k' = k
    · subst hk
      have heq : hobs k' v ((k', vs) :: rest) = (k', vs ++ [v]) :: rest := by simp [hobs]
      rw [heq]
      simp [List.filter_cons, h]
    · have heq : hobs k v ((k', vs) :: rest) = (k', vs) :: hobs k v rest := by
        simp [hobs, hk]
      rw [heq, List.filter_cons, List.filter_cons, ih]

theorem restrict_applyEvent (st : RegistryState) (e : MEvent)
    (h : eventSafe e = true) :
    restrictState (applyEvent st e) = restrictState st := by
  cases e with
  | gaugeInc n =>
    have hn : isUntouchedKey ((n, []) : GKey) = false := by
      simpa [eventSafe, eventName, isUntouchedKey] using h
    show restrictState { st with gauges := gadd (n, []) 1 st.gauges } = restrictState st
    simp only [restrictState, gadd]
    rw [filter_gset_untouched _ _ _ hn]
  | gaugeDec n =>
    have hn : isUntouchedKey ((n, []) : GKey) = false := by
      simpa [eventSafe, eventName, isUntouchedKey] using h
    show restrictState { st with gauges := gadd (n, []) (-1) st.gauges } = restrictState st
    simp only [restrictState, gadd]
    rw [filter_gset_untouched _ _ _ hn]
  | gaugeSet n ls v =>
    have hn : isUntouchedKey ((n, ls) : GKey) = false := by
      simpa [eventSafe, eventName, isUntouchedKey] using h
    show restrictState { st with gauges := gset (n, ls) v st.gauges } = restrictState st
    simp only [restrictState]
    rw [filter_gset_untouched _ _ _ hn]
  | counterInc n ls =>
    have hn : isUntouchedKey ((n, ls) : GKey) = false := by
      simpa [eventSafe, eventName, isUntouchedKey] using h
    show restrictState { st with counters := cinc (n, ls) st.counters } = restrictState st
    simp only [restrictState]
    rw [filter_cinc_untouched _ _ hn]
  | observe n ls v =>
    have hn : isUntouchedKey ((n, ls) : GKey) = false := by
      simpa [eventSafe, eventName, isUntouchedKey] using h
    show restrictState { st with histos := hobs (n, ls) v st.histos } = restrictState st
    simp only [restrictState]
    rw [filter_hobs_untouched _ _ _ hn]

theorem restrict_runEvents (es : List MEvent) :
    ∀ st, es.all eventSafe = true →
      restrictState (runEvents st es) = restrictState st := by
  induction es with
  | nil =>
    intro st _
    rfl
  | cons e rest ih =>
    intro st hall
    rw [List.all_cons, Bool.and_eq_true] at hall
    show restrictState (runEvents (applyEvent st e) rest) = restrictState st
    rw [ih _ hall.2, restrict_applyEvent st e hall.1]

theorem middlewareEvents_all_safe (req : Request) (outcome : HandlerResult) (d : ℚ) :
    (middlewareEvents req outcome d).all eventSafe = true := by
  cases outcome with
  | fault =>
    simp only [middlewareEvents]
    decide
  | ok status respLen =>
    simp only [middlewareEvents]
    split_ifs <;>
      simp [List.all_cons, List.all_append, eventSafe, eventName, untouchedNames]

theorem filter_applySets_untouched (ws : List (GKey × ℚ)) :
    ∀ g, (∀ w ∈ ws, isUntouchedKey w.1 = false) →
      (applySets ws g).filter (fun e => isUntouchedKey e.1)
        = g.filter (fun e => isUntouchedKey e.1) := by
  induction ws with
  | nil =>
    intro g _
    rfl
  | cons w rest ih =>
    intro g hall
    show (applySets rest (gset w.1 w.2 g)).filter (fun e => isUntouchedKey e.1) = _
    rw [ih _ (fun w' hw' => hall w' (List.mem_cons_of_mem _ hw')),
      filter_gset_untouched _ _ _ (hall w (List.mem_cons_self _ _))]

theorem updateWrites_untouched (poolSize : ℚ) (snap : Option (List Project)) :
    ∀ w ∈ updateWrites poolSize snap, isUntouchedKey w.1 = false := by
  intro w hw
  cases snap with
  | none =>
    simp only [updateWrites, List.mem_singleton] at hw
    rw [hw]
    show untouchedNames.contains "db_pool_size" = false
    decide
  | some ps =>
    simp only [updateWrites, List.mem_cons, List.mem_append] at hw
    rcases hw with hw | (hw | hw) | hw
    · rw [hw]
      show untouchedNames.contains "db_pool_size" = false
      decide
    · rcases List.mem_map.1 hw with ⟨p, _, hp⟩
      rw [← hp]
      show untouchedNames.contains "platform_projects" = false
      decide
    · rcases List.mem_map.1 hw with ⟨c, _, hc⟩
      rw [← hc]
      show untouchedNames.contains "platform_projects_total" = false
      decide
    · rcases List.mem_map.1 hw with ⟨e, _, he⟩
      rw [← he]
      show untouchedNames.contains "platform_projects_total" = false
      decide

theorem restrict_stepOp (st : RegistryState) (op : Op) :
    restrictState (stepOp st op) = restrictState st := by
  cases op with
  | request req outcome d =>
    exact restrict_runEvents _ st (middlewareEvents_all_safe req outcome d)
  | tick poolSize snap =>
    show restrictState (update_metrics poolSize snap st) = restrictState st
    simp only [restrictState, update_metrics]
    rw [filter_applySets_untouched _ _ (updateWrites_untouched poolSize snap)]

/-- C10: `http_error_rate`, `endpoint_error_rate`, `db_pool_idle` and
`db_pool_active` are all registered at startup, and no sequence of
process operations — instrumented requests (completed or faulted) or
reconciliation ticks — ever writes to them, so they keep their initial
state for the whole process lifetime: the two plain gauges stay at 0
and the two vectors never acquire a series. -/
theorem untouched_metrics_keep_initial_state (ops : List Op) :
    ("http_error_rate" ∈ metricsNew.map MetricReg.mname
      ∧ "endpoint_error_rate" ∈ metricsNew.map MetricReg.mname
      ∧ "db_pool_idle" ∈ metricsNew.map MetricReg.mname
      ∧ "db_pool_active" ∈ metricsNew.map MetricReg.mname)
    ∧ restrictState (runOps initState ops) = restrictState initState
    ∧ restrictState initState
        = ⟨[(("db_pool_idle", []), 0), (("db_pool_active", []), 0)], [], []⟩ := by
  refine ⟨by decide, ?_, by decide⟩
  suffices h : ∀ st, restrictState (runOps st ops) = restrictState st from h initState
  induction ops with
  | nil =>
    intro st
    rfl
  | cons op rest ih =>
    intro st
    show restrictState (runOps (stepOp st op) rest) = restrictState st
    rw [ih, restrict_stepOp]

end TelemetryWatch
